import Mathlib

/-!
Shallow embedding of the checked integer primitives of
`src/include/checked_integer.hpp` (boost safe_numerics, layer 0).

Machine integer types are modelled as a sign flag plus a bit width; machine
values are mathematical integers `Int` constrained by an `inRange` predicate.
Two's-complement conversions (`static_cast`), the C++ integer promotions and
the usual arithmetic conversions are made explicit, because the source applies
them implicitly (`return t;` with result type `checked_result<R>`, or
`t % abs(u)` whose operands undergo the usual arithmetic conversions).

The native C++ division, remainder and shift expressions that can trap or be
undefined are embedded as `Option Int` valued functions (`cpp_div`, `cpp_mod`,
`cpp_shl`, `cpp_shr`); `none` marks an evaluation that the C++ abstract
machine does not define (divide by zero, the `min / -1` overflow trap, a
shift by at least the width of the promoted operand).  An operation of the
library therefore returns `Option checked_result`: `none` would mean that the
library evaluated a trapping native expression.

`checked_result<T>` and the error enumeration live in `checked_result.hpp`
and `exception.hpp`, which are not part of the sources; they are modelled
from the spec (section 3): a tagged union of a value and an error kind plus
a static message.  `safe_compare` (spec section 4.2) is the mathematically
correct comparison, which on `Int` is the native order.  `significant_bits`
(spec section 4.1) is likewise modelled from the spec.
-/

namespace SafeNumerics

/-- A machine integer type: a signedness flag and a bit width. -/
structure IntType where
  signed : Bool
  width : Nat
deriving DecidableEq

/-- Least value of the type, `std::numeric_limits::min()`. -/
def minv (S : IntType) : Int :=
  if S.signed then -(2 ^ (S.width - 1)) else 0

/-- Greatest value of the type, `std::numeric_limits::max()`. -/
def maxv (S : IntType) : Int :=
  if S.signed then 2 ^ (S.width - 1) - 1 else 2 ^ S.width - 1

/-- The value `x` is representable in `S`. -/
def inRange (S : IntType) (x : Int) : Prop :=
  minv S ≤ x ∧ x ≤ maxv S

instance (S : IntType) (x : Int) : Decidable (inRange S x) := by
  unfold inRange; exact inferInstance

/-- Standard fixed-width machine integer widths supported by the library. -/
def StdT (S : IntType) : Prop :=
  S.width = 8 ∨ S.width = 16 ∨ S.width = 32 ∨ S.width = 64

instance (S : IntType) : Decidable (StdT S) := by
  unfold StdT; exact inferInstance

def i8 : IntType := ⟨true, 8⟩
def u8 : IntType := ⟨false, 8⟩
def i16 : IntType := ⟨true, 16⟩
def u16 : IntType := ⟨false, 16⟩
def i32 : IntType := ⟨true, 32⟩
def u32 : IntType := ⟨false, 32⟩
def i64 : IntType := ⟨true, 64⟩
def u64 : IntType := ⟨false, 64⟩

/-- C++ `static_cast` to an integer type, assuming two's complement (the
source states this presumption): reduce modulo `2^width` and reinterpret the
high bit when the target is signed. -/
def static_cast (S : IntType) (x : Int) : Int :=
  let m := Int.emod x (2 ^ S.width)
  if S.signed = true ∧ 2 ^ (S.width - 1) ≤ m then m - 2 ^ S.width else m

/-- The unsigned type of the same width, `std::make_unsigned_t`. -/
def uns (S : IntType) : IntType := ⟨false, S.width⟩

/-- C++ integer promotion: types narrower than `int` (32 bits here) promote
to `int`, which represents all their values. -/
def promote (S : IntType) : IntType :=
  if S.width < 32 then ⟨true, 32⟩ else S

/-- C++ usual arithmetic conversions on two (promoted) integer types: same
signedness takes the wider type; otherwise the unsigned type wins unless the
signed type is strictly wider (and hence represents every unsigned value). -/
def uac (A B : IntType) : IntType :=
  let a := promote A
  let b := promote B
  if a.signed = b.signed then (if a.width < b.width then b else a)
  else
    let s := if a.signed then a else b
    let n := if a.signed then b else a
    if n.width < s.width then s else n

/-- Count of non-sign value bits, `std::numeric_limits::digits`. -/
def digits (S : IntType) : Nat :=
  S.width - (if S.signed then 1 else 0)

/-- Number of binary digits of a natural number (`⌊log2 n⌋ + 1` for
`n ≠ 0`, `0` for `n = 0`), computed with structural fuel so that it reduces
in the kernel; `fuel ≥ n` always suffices. -/
def sb_fuel : Nat → Nat → Nat
  | 0, _ => 0
  | f + 1, n => if n = 0 then 0 else sb_fuel f (n / 2) + 1

/-- Modelled from the spec: `utility::significant_bits` from `utility.hpp`
(not among the sources) is the position of the highest set bit of `abs x`
plus one, and `0` for `x = 0` (spec section 4.1). -/
def significant_bits (x : Int) : Nat :=
  sb_fuel x.natAbs x.natAbs

/-- Error taxonomy of `exception.hpp` (not among the sources), modelled from
the spec, section 3. -/
inductive safe_numerics_error where
  | positive_overflow_error
  | negative_overflow_error
  | range_error
  | domain_error
  | undefined_behavior
  | implementation_defined_behavior
deriving DecidableEq

/-- Result carrier of `checked_result.hpp` (not among the sources), modelled
from the spec, section 3: either a value or an error kind with a static
diagnostic message.  The stored value of `checked_result<R>` is an `R`; every
construction site in the embedding converts with `static_cast` where the C++
performs an implicit conversion to `R`. -/
inductive checked_result where
  | Ok (v : Int)
  | Err (e : safe_numerics_error) (msg : String)
deriving DecidableEq

open checked_result safe_numerics_error

/-- True when the checked result is the error variant, `.exception()`. -/
def isErrB : checked_result → Bool
  | Err _ _ => true
  | Ok _ => false

/-- True when an operation returned a defined, successful result. -/
def isOkR : Option checked_result → Bool
  | some (Ok _) => true
  | _ => false

/-- The native C++ division `t / u` evaluated in type `S`: undefined on a
zero divisor and, for signed `S`, when the truncated quotient overflows
(the `min / -1` case). -/
def cpp_div (S : IntType) (t u : Int) : Option Int :=
  if u = 0 then none
  else if S.signed = true ∧ ¬ inRange S (Int.tdiv t u) then none
  else some (Int.tdiv t u)

/-- The native C++ remainder `t % u` evaluated in type `S`: the hardware
computes the division as a side effect, so it traps exactly when `t / u`
does; otherwise the value is the truncated remainder (sign of the dividend). -/
def cpp_mod (S : IntType) (t u : Int) : Option Int :=
  if u = 0 then none
  else if S.signed = true ∧ ¬ inRange S (Int.tdiv t u) then none
  else some (Int.tmod t u)

/-- The native C++ left shift `t << u` evaluated in the promoted type `S`:
undefined for a negative or too-large count, and for signed `S` when the
operand is negative or the value `t * 2^u` is not representable. -/
def cpp_shl (S : IntType) (t u : Int) : Option Int :=
  if u < 0 ∨ (S.width : Int) ≤ u then none
  else if S.signed = true ∧ (t < 0 ∨ ¬ inRange S (t * 2 ^ u.toNat)) then none
  else some (static_cast S (t * 2 ^ u.toNat))

/-- The native C++ right shift `t >> u` evaluated in the promoted type `S`:
undefined for a negative or too-large count; for a negative signed operand
the value is implementation defined (the source never evaluates that case),
so it is left undefined here as well. -/
def cpp_shr (S : IntType) (t u : Int) : Option Int :=
  if u < 0 ∨ (S.width : Int) ≤ u then none
  else if S.signed = true ∧ t < 0 then none
  else some (Int.tdiv t (2 ^ u.toNat))

/-- Four-quadrant checked conversion, `cast_impl_detail::cast_impl` dispatched
on `is_signed<R>`/`is_signed<T>` as in `checked_unary_operation::cast`
(`checked_integer.hpp` lines 51-159).  The `safe_compare` comparisons of the
source are the mathematically correct ones, hence plain `Int` comparisons
here. -/
def cast (R T : IntType) (t : Int) : checked_result :=
  match R.signed, T.signed with
  | true, true =>
      if maxv R < t then Err positive_overflow_error "converted signed value too large"
      else if t < minv R then Err negative_overflow_error "converted signed value too small"
      else Ok (static_cast R t)
  | true, false =>
      if maxv R < t then Err positive_overflow_error "converted unsigned value too large"
      else Ok (static_cast R t)
  | false, false =>
      if maxv R < t then Err positive_overflow_error "converted unsigned value too large"
      else Ok (static_cast R t)
  | false, true =>
      if t < 0 then Err domain_error "converted negative value to unsigned"
      else if maxv R < t then Err positive_overflow_error "converted signed value too large"
      else Ok (static_cast R t)

/-- Per-sign subtraction pre-check, `subtract_impl_detail::subtract`
(`checked_integer.hpp` lines 243-287).  The branch conditions, error kinds
and messages are exactly those of the source. -/
def subtract_impl (R : IntType) (t u : Int) : checked_result :=
  if R.signed then
    if u > 0 ∧ t < minv R + u then
      Err positive_overflow_error "subtraction result overflows result type"
    else if u < 0 ∧ t > maxv R + u then
      Err negative_overflow_error "subtraction result overflows result type"
    else Ok (t - u)
  else
    if t < u then Err range_error "subtraction result cannot be negative"
    else Ok (t - u)

/-- Checked subtraction (`checked_integer.hpp` lines 289-297): cast each
operand to `R`, propagate the first cast error, then run the per-sign
pre-check.  The source passes the original `t`, `u` to the detail function,
implicitly converting them to `R`, hence the `static_cast R` here. -/
def subtract (R T U : IntType) (t u : Int) : checked_result :=
  match cast R T t with
  | Err e m => Err e m
  | Ok _ =>
    match cast R U u with
    | Err e m => Err e m
    | Ok _ => subtract_impl R (static_cast R t) (static_cast R u)

/-- Checked division (`checked_integer.hpp` lines 445-490): zero divisor
first, then both casts with any cast failure repackaged as a domain error,
then the signed `min / -1` guard of `divide_impl_detail::divide`, then the
native division. -/
def divide (R T U : IntType) (t u : Int) : Option checked_result :=
  if u = 0 then some (Err domain_error "divide by zero")
  else
    match cast R T t, cast R U u with
    | Ok tx, Ok ux =>
        if R.signed then
          if ux = -1 ∧ tx = minv R then
            some (Err range_error "result cannot be represented")
          else (cpp_div R tx ux).map (fun q => Ok q)
        else (cpp_div R tx ux).map (fun q => Ok q)
    | _, _ => some (Err domain_error "failure converting argument types")

/-- The constexpr absolute value helper of `checked_binary_operation`
(`checked_integer.hpp` lines 496-504): returns `make_unsigned_t` of the
argument type; `(t < 0 && t != min) ? -t : t`, both branches converted to
the unsigned return type. -/
def m_abs (U : IntType) (u : Int) : Int :=
  if u < 0 ∧ u ≠ minv U then static_cast (uns U) (-u) else static_cast (uns U) u

/-- Checked modulus (`checked_integer.hpp` lines 506-521): zero divisor
check, then `t % abs(u)` with no cast of the operands into `R`.  The `%`
operands undergo the usual arithmetic conversions between `T` and
`make_unsigned_t<U>`, and the result is implicitly converted to `R` by the
`checked_result<R>` return. -/
def modulus (R T U : IntType) (t u : Int) : Option checked_result :=
  if u = 0 then some (Err domain_error "denominator is zero")
  else
    (cpp_mod (uac T (uns U)) (static_cast (uac T (uns U)) t)
      (static_cast (uac T (uns U)) (m_abs U u))).map
      (fun r => Ok (static_cast R r))

/-- Unsigned-operand left shift detail,
`left_shift_integer_detail::left_shift` with `T` unsigned
(`checked_integer.hpp` lines 597-621): reject counts that would shift
significant bits off the top of `R`, else the native shift of the promoted
operand, converted to `R`. -/
def left_shift_u_det (R T : IntType) (t u : Int) : Option checked_result :=
  if u > (digits R : Int) - (significant_bits t : Int) then
    some (Err undefined_behavior "shifting left more bits than available is undefined behavior")
  else (cpp_shl (promote T) t u).map (fun v => Ok (static_cast R v))

/-- The outer shift frame of `checked::left_shift` re-entered at
`make_unsigned_t<T>` by the signed detail (`checked_integer.hpp` line 635):
since the re-entry type is unsigned, the template recursion unrolls exactly
once into this copy of the frame. -/
def left_shift_uframe (R T U : IntType) (t u : Int) : Option checked_result :=
  if u = 0 then some (Ok (static_cast R t))
  else if u < 0 then
    some (Err implementation_defined_behavior "shifting negative amount is implementation defined behavior")
  else if u > (digits R : Int) then
    some (Err implementation_defined_behavior "shifting more bits than available is implementation defined behavior")
  else if t = 0 then some (cast R T t)
  else left_shift_u_det R T t u

/-- Checked left shift (`checked_integer.hpp` lines 649-676): `u == 0`
returns `t` (implicitly converted to `R`), negative and too-large counts are
implementation defined, `t == 0` is cast, then dispatch on the signedness of
`T`; a negative signed operand is undefined behavior, a non-negative one is
reinterpreted as the unsigned type of the same width and re-enters the
frame. -/
def left_shift (R T U : IntType) (t u : Int) : Option checked_result :=
  if u = 0 then some (Ok (static_cast R t))
  else if u < 0 then
    some (Err implementation_defined_behavior "shifting negative amount is implementation defined behavior")
  else if u > (digits R : Int) then
    some (Err implementation_defined_behavior "shifting more bits than available is implementation defined behavior")
  else if t = 0 then some (cast R T t)
  else if T.signed then
    if t ≥ 0 then left_shift_uframe R (uns T) U (static_cast (uns T) t) u
    else some (Err undefined_behavior "shifting a negative value is undefined behavior")
  else left_shift_u_det R T t u

/-- Right shift detail, `right_shift_integer_detail::right_shift`
(`checked_integer.hpp` lines 680-714): a negative signed operand is
implementation defined; otherwise the native shift of the promoted operand,
then `checked::cast<R>`. -/
def right_shift_det (R T : IntType) (t u : Int) : Option checked_result :=
  if T.signed = true ∧ t < 0 then
    some (Err implementation_defined_behavior "shifting a negative value is implementation defined behavior")
  else
    match cpp_shr (promote T) t u with
    | none => none
    | some v => some (cast R (promote T) v)

/-- Checked right shift (`checked_integer.hpp` lines 716-743): same outer
frame; at `t == 0` the source casts the literal `0` (of type `int`). -/
def right_shift (R T U : IntType) (t u : Int) : Option checked_result :=
  if u = 0 then some (Ok (static_cast R t))
  else if u < 0 then
    some (Err implementation_defined_behavior "shifting negative amount is implementation defined behavior")
  else if u > (digits R : Int) then
    some (Err implementation_defined_behavior "shifting more bits than available is implementation defined behavior")
  else if t = 0 then some (cast R i32 0)
  else right_shift_det R T t u

/-! Helper lemmas about the embedding. -/

theorem std_two (S : IntType) (h : StdT S) : 2 ≤ S.width := by
  unfold StdT at h; omega

theorem digits_le (S : IntType) : digits S ≤ S.width := by
  unfold digits; split <;> omega

theorem minv_unsigned (w : Nat) : minv ⟨false, w⟩ = 0 := rfl

theorem maxv_unsigned (w : Nat) : maxv ⟨false, w⟩ = 2 ^ w - 1 := rfl

theorem minv_signed (w : Nat) : minv ⟨true, w⟩ = -(2 ^ (w - 1)) := rfl

theorem maxv_signed (w : Nat) : maxv ⟨true, w⟩ = 2 ^ (w - 1) - 1 := rfl

theorem minv_nonpos (S : IntType) : minv S ≤ 0 := by
  have h : (0:Int) < 2 ^ (S.width - 1) := by positivity
  unfold minv
  split <;> omega

theorem maxv_nonneg (S : IntType) : 0 ≤ maxv S := by
  have h1 : (0:Int) < 2 ^ (S.width - 1) := by positivity
  have h2 : (0:Int) < 2 ^ S.width := by positivity
  unfold maxv
  split <;> omega

theorem emod_eq_add_self (a n : Int) (h0 : 0 ≤ a + n) (h1 : a < 0) :
    a.emod n = a + n := by
  have h : (a + n * 1) % n = a % n := Int.add_mul_emod_self_left a n 1
  rw [mul_one] at h
  show a % n = a + n
  rw [← h]
  exact Int.emod_eq_of_lt h0 (by omega)

theorem static_cast_of_inRange (S : IntType) (hw : 0 < S.width) (x : Int)
    (h : inRange S x) : static_cast S x = x := by
  obtain ⟨w, hw'⟩ : ∃ w, S.width = w + 1 := ⟨S.width - 1, by omega⟩
  rcases h with ⟨h1, h2⟩
  unfold minv at h1
  unfold maxv at h2
  unfold static_cast
  rw [hw'] at h1 h2 ⊢
  simp only [Nat.add_sub_cancel] at h1 h2 ⊢
  have hpow : (2:Int) ^ (w + 1) = 2 ^ w * 2 := by ring
  by_cases hs : S.signed = true
  · rw [if_pos hs] at h1 h2
    by_cases hx : 0 ≤ x
    · have hm : x.emod (2 ^ (w + 1)) = x := Int.emod_eq_of_lt hx (by omega)
      rw [hm, if_neg (by omega)]
    · have hm : x.emod (2 ^ (w + 1)) = x + 2 ^ (w + 1) :=
        emod_eq_add_self x _ (by omega) (by omega)
      rw [hm, if_pos ⟨hs, by omega⟩]
      omega
  · rw [if_neg hs] at h1 h2
    have hm : x.emod (2 ^ (w + 1)) = x := Int.emod_eq_of_lt h1 (by omega)
    rw [hm, if_neg (by tauto)]

theorem static_cast_mem (S : IntType) (hw : 0 < S.width) (x : Int) :
    inRange S (static_cast S x) := by
  obtain ⟨w, hw'⟩ : ∃ w, S.width = w + 1 := ⟨S.width - 1, by omega⟩
  unfold static_cast inRange minv maxv
  rw [hw']
  simp only [Nat.add_sub_cancel]
  have hpow : (2:Int) ^ (w + 1) = 2 ^ w * 2 := by ring
  have hppos : (0:Int) < 2 ^ (w + 1) := by positivity
  have hm0 : 0 ≤ x.emod (2 ^ (w + 1)) := Int.emod_nonneg x (by omega)
  have hm1 : x.emod (2 ^ (w + 1)) < 2 ^ (w + 1) := Int.emod_lt_of_pos x hppos
  split_ifs with hc h1 h2 <;> constructor <;> simp_all <;> omega

theorem cast_ok_elim (R T : IntType) (t v : Int) (hwR : 0 < R.width)
    (ht : inRange T t) (h : cast R T t = Ok v) : v = t ∧ inRange R t := by
  rcases ht with ⟨ht1, ht2⟩
  rcases R with ⟨sR, wR⟩
  rcases T with ⟨sT, wT⟩
  have hpR : (0:Int) < 2 ^ (wR - 1) := by positivity
  cases sR <;> cases sT
  · simp only [cast] at h
    split_ifs at h with h1
    rw [maxv_unsigned] at h1
    rw [minv_unsigned] at ht1
    have hin : inRange ⟨false, wR⟩ t := ⟨by rw [minv_unsigned]; omega,
      by rw [maxv_unsigned]; omega⟩
    rw [static_cast_of_inRange _ hwR t hin] at h
    injection h with hv
    exact ⟨hv.symm, hin⟩
  · simp only [cast] at h
    split_ifs at h with h1 h2
    rw [maxv_unsigned] at h2
    have hin : inRange ⟨false, wR⟩ t := ⟨by rw [minv_unsigned]; omega,
      by rw [maxv_unsigned]; omega⟩
    rw [static_cast_of_inRange _ hwR t hin] at h
    injection h with hv
    exact ⟨hv.symm, hin⟩
  · simp only [cast] at h
    split_ifs at h with h1
    rw [maxv_signed] at h1
    rw [minv_unsigned] at ht1
    have hin : inRange ⟨true, wR⟩ t := ⟨by rw [minv_signed]; omega,
      by rw [maxv_signed]; omega⟩
    rw [static_cast_of_inRange _ hwR t hin] at h
    injection h with hv
    exact ⟨hv.symm, hin⟩
  · simp only [cast] at h
    split_ifs at h with h1 h2
    rw [maxv_signed] at h1
    rw [minv_signed] at h2
    have hin : inRange ⟨true, wR⟩ t := ⟨by rw [minv_signed]; omega,
      by rw [maxv_signed]; omega⟩
    rw [static_cast_of_inRange _ hwR t hin] at h
    injection h with hv
    exact ⟨hv.symm, hin⟩

theorem cast_ok_intro (R T : IntType) (t : Int) (hwR : 0 < R.width)
    (ht : inRange T t) (hR : inRange R t) : cast R T t = Ok t := by
  rcases ht with ⟨ht1, ht2⟩
  rcases hR with ⟨hR1, hR2⟩
  have hsc : static_cast R t = t := static_cast_of_inRange R hwR t ⟨hR1, hR2⟩
  rcases R with ⟨sR, wR⟩
  rcases T with ⟨sT, wT⟩
  have hpR : (0:Int) < 2 ^ (wR - 1) := by positivity
  cases sR <;> cases sT <;> simp only [cast]
  · rw [maxv_unsigned] at hR2
    rw [if_neg (by rw [maxv_unsigned]; omega), hsc]
  · rw [minv_unsigned] at hR1
    rw [maxv_unsigned] at hR2
    rw [if_neg (by omega), if_neg (by rw [maxv_unsigned]; omega), hsc]
  · rw [maxv_signed] at hR2
    rw [if_neg (by rw [maxv_signed]; omega), hsc]
  · rw [minv_signed] at hR1
    rw [maxv_signed] at hR2
    rw [if_neg (by rw [maxv_signed]; omega), if_neg (by rw [minv_signed]; omega), hsc]

theorem minv_of_signed (S : IntType) (hs : S.signed = true) :
    minv S = -(2 ^ (S.width - 1)) := by
  unfold minv; rw [if_pos hs]

theorem maxv_of_signed (S : IntType) (hs : S.signed = true) :
    maxv S = 2 ^ (S.width - 1) - 1 := by
  unfold maxv; rw [if_pos hs]

theorem minv_of_unsigned (S : IntType) (hs : ¬ S.signed = true) : minv S = 0 := by
  unfold minv; rw [if_neg hs]

theorem maxv_of_unsigned (S : IntType) (hs : ¬ S.signed = true) :
    maxv S = 2 ^ S.width - 1 := by
  unfold maxv; rw [if_neg hs]

theorem uns_signed (S : IntType) : (uns S).signed = false := rfl

theorem uns_width (S : IntType) : (uns S).width = S.width := rfl

theorem tdiv_inRange (S : IntType) (hw : 2 ≤ S.width) (a b : Int)
    (ha : inRange S a) (hb : inRange S b) (hb0 : b ≠ 0)
    (hne : ¬(b = -1 ∧ a = minv S)) : inRange S (Int.tdiv a b) := by
  rcases ha with ⟨ha1, ha2⟩
  rcases hb with ⟨hb1, hb2⟩
  have hnat : (Int.tdiv a b).natAbs = a.natAbs / b.natAbs := Int.natAbs_tdiv a b
  by_cases hs : S.signed = true
  · obtain ⟨w2, hw'⟩ : ∃ w2, S.width - 1 = w2 + 1 := ⟨S.width - 2, by omega⟩
    rw [minv_of_signed S hs, hw'] at ha1 hb1 hne
    rw [maxv_of_signed S hs, hw'] at ha2 hb2
    have hKrel : (2:Int) ^ (w2 + 1) = 2 ^ w2 * 2 := by ring
    have hK2 : (0:Int) < 2 ^ w2 := by positivity
    rcases (by omega : b.natAbs = 1 ∨ 2 ≤ b.natAbs) with hb' | hb'
    · rcases (by omega : b = 1 ∨ b = -1) with rfl | rfl
      · rw [Int.tdiv_one]
        exact ⟨by rw [minv_of_signed S hs, hw']; omega,
          by rw [maxv_of_signed S hs, hw']; omega⟩
      · have hna : a ≠ -2 ^ (w2 + 1) := fun hh => hne ⟨rfl, hh⟩
        have hdv : Int.tdiv a (-1) = -a := by
          rw [show ((-1:Int)) = -(1:Int) by norm_num, Int.tdiv_neg, Int.tdiv_one]
        rw [hdv]
        exact ⟨by rw [minv_of_signed S hs, hw']; omega,
          by rw [maxv_of_signed S hs, hw']; omega⟩
    · have hd1 : a.natAbs / b.natAbs ≤ a.natAbs / 2 := Nat.div_le_div_left hb' (by omega)
      have hcast : ((2 ^ (w2 + 1) : Nat) : Int) = 2 ^ (w2 + 1) := by push_cast; ring
      have haK : a.natAbs ≤ 2 ^ (w2 + 1) := by omega
      have hd2 : a.natAbs / 2 ≤ 2 ^ (w2 + 1) / 2 := Nat.div_le_div_right haK
      have hd3 : (2:Nat) ^ (w2 + 1) / 2 = 2 ^ w2 := by
        rw [pow_succ]
        exact Nat.mul_div_cancel _ (by norm_num)
      have hd4 : (Int.tdiv a b).natAbs ≤ 2 ^ w2 := by omega
      have hKn : (1:Nat) ≤ 2 ^ w2 := Nat.one_le_pow _ _ (by norm_num)
      have hcast2 : ((2 ^ w2 : Nat) : Int) = 2 ^ w2 := by push_cast; ring
      exact ⟨by rw [minv_of_signed S hs, hw']; omega,
        by rw [maxv_of_signed S hs, hw']; omega⟩
  · rw [minv_of_unsigned S hs] at ha1 hb1
    rw [maxv_of_unsigned S hs] at ha2 hb2
    have hq0 : 0 ≤ Int.tdiv a b := Int.tdiv_nonneg ha1 hb1
    have hd : (Int.tdiv a b).natAbs ≤ a.natAbs := by
      rw [hnat]; exact Nat.div_le_self _ _
    exact ⟨by rw [minv_of_unsigned S hs]; omega,
      by rw [maxv_of_unsigned S hs]; omega⟩

theorem uac_facts (T U : IntType) (hT : StdT T) (hU : StdT U) :
    2 ≤ (uac T (uns U)).width ∧
    ((uac T (uns U)).signed = true → U.width < (uac T (uns U)).width) ∧
    ((uac T (uns U)).signed = false → U.width ≤ (uac T (uns U)).width) := by
  rcases T with ⟨sT, wT⟩
  rcases U with ⟨sU, wU⟩
  unfold StdT at hT hU
  simp only at hT hU
  cases sT <;> cases sU <;> rcases hT with h | h | h | h <;>
    rcases hU with h2 | h2 | h2 | h2 <;> subst h <;> subst h2 <;> decide

theorem minv_uns (S : IntType) : minv (uns S) = 0 := rfl

theorem maxv_uns (S : IntType) : maxv (uns S) = 2 ^ S.width - 1 := rfl

theorem m_abs_bound (U : IntType) (hU2 : 2 ≤ U.width) (u : Int)
    (hu : inRange U u) (hu0 : u ≠ 0) :
    1 ≤ m_abs U u ∧ m_abs U u ≤ 2 ^ U.width - 1 := by
  obtain ⟨w, hw'⟩ : ∃ w, U.width = w + 1 := ⟨U.width - 1, by omega⟩
  rcases hu with ⟨hu1, hu2⟩
  have hpw : (2:Int) ^ (w + 1) = 2 ^ w * 2 := by ring
  have hp1 : (0:Int) < 2 ^ w := by positivity
  have hwu : 0 < (uns U).width := by rw [uns_width]; omega
  unfold m_abs
  by_cases hs : U.signed = true
  · have hmv : minv U = -(2 ^ w) := by
      rw [minv_of_signed U hs, hw']
      simp only [Nat.add_sub_cancel]
    have hxv : maxv U = 2 ^ w - 1 := by
      rw [maxv_of_signed U hs, hw']
      simp only [Nat.add_sub_cancel]
    rw [hmv] at hu1
    rw [hxv] at hu2
    by_cases hc : u < 0 ∧ u ≠ minv U
    · rw [if_pos hc]
      obtain ⟨hc1, hc2⟩ := hc
      rw [hmv] at hc2
      have hin : inRange (uns U) (-u) := by
        rw [inRange, minv_uns, maxv_uns, hw']
        constructor <;> omega
      rw [static_cast_of_inRange _ hwu _ hin, hw']
      constructor <;> omega
    · rw [if_neg hc]
      by_cases hval : 0 ≤ u
      · have hin : inRange (uns U) u := by
          rw [inRange, minv_uns, maxv_uns, hw']
          constructor <;> omega
        rw [static_cast_of_inRange _ hwu _ hin, hw']
        constructor <;> omega
      · have hu' : u = -(2 ^ w) := by
          rcases (not_and_or.mp hc) with hcc | hcc
          · omega
          · rw [hmv] at hcc
            omega
        have hm : (-(2 ^ w) : Int).emod (2 ^ (w + 1)) = -(2 ^ w) + 2 ^ (w + 1) :=
          emod_eq_add_self _ _ (by omega) (by omega)
        rw [hu']
        unfold static_cast
        rw [uns_signed, uns_width, hw', hm]
        simp only [Bool.false_eq_true, false_and, if_false]
        constructor <;> omega
  · rw [minv_of_unsigned U hs] at hu1
    rw [maxv_of_unsigned U hs] at hu2
    have hupos : ¬(u < 0 ∧ u ≠ minv U) := by
      intro hh
      omega
    rw [if_neg hupos]
    have hin : inRange (uns U) u := by
      rw [inRange, minv_uns, maxv_uns]
      constructor <;> omega
    rw [static_cast_of_inRange _ hwu _ hin]
    constructor <;> omega

theorem modulus_total (R T U : IntType) (hT : StdT T) (hU : StdT U) (t u : Int)
    (ht : inRange T t) (hu : inRange U u) (hu0 : u ≠ 0) :
    ∃ v, modulus R T U t u = some (Ok v) := by
  unfold modulus
  rw [if_neg hu0]
  obtain ⟨hC2, hCs, hCu⟩ := uac_facts T U hT hU
  obtain ⟨hv1, hv2⟩ := m_abs_bound U (std_two U hU) u hu hu0
  have hCpos : 0 < (uac T (uns U)).width := by omega
  have hadin : inRange (uac T (uns U)) (m_abs U u) := by
    constructor
    · have := minv_nonpos (uac T (uns U))
      omega
    · by_cases hs : (uac T (uns U)).signed = true
      · rw [maxv_of_signed _ hs]
        have hUl : U.width ≤ (uac T (uns U)).width - 1 := by
          have := hCs hs
          omega
        have hmono : (2:Int) ^ U.width ≤ 2 ^ ((uac T (uns U)).width - 1) :=
          pow_le_pow_right₀ (by norm_num) hUl
        omega
      · rw [maxv_of_unsigned _ hs]
        have hUl : U.width ≤ (uac T (uns U)).width := by
          have := hCu (by simpa using hs)
          omega
        have hmono : (2:Int) ^ U.width ≤ 2 ^ (uac T (uns U)).width :=
          pow_le_pow_right₀ (by norm_num) hUl
        omega
  have had : static_cast (uac T (uns U)) (m_abs U u) = m_abs U u :=
    static_cast_of_inRange _ hCpos _ hadin
  have htdin : inRange (uac T (uns U)) (static_cast (uac T (uns U)) t) :=
    static_cast_mem _ hCpos t
  unfold cpp_mod
  rw [had]
  rw [if_neg (by omega : ¬ m_abs U u = 0)]
  by_cases hs : (uac T (uns U)).signed = true
  · have hdiv : inRange (uac T (uns U))
        (Int.tdiv (static_cast (uac T (uns U)) t) (m_abs U u)) :=
      tdiv_inRange _ hC2 _ _ htdin hadin (by omega) (by
        intro hh
        omega)
    rw [if_neg (by
      intro hh
      exact hh.2 hdiv)]
    exact ⟨_, rfl⟩
  · rw [if_neg (by
      intro hh
      exact hs hh.1)]
    exact ⟨_, rfl⟩

/-! Claim theorems. -/

/-- C1: the claim states that whenever a binary operation returns Ok, the
value is the mathematically correct result.  It fails at modulus: for
R = T = U = i32 the code returns Ok 0 for modulus(-7, 3), although the
correct remainder (sign of the dividend, as the modulus comment in the
source itself specifies) is -1.  The cause: `t % abs(u)` converts the
negative dividend to unsigned under the usual arithmetic conversions, since
`abs` returns `make_unsigned_t<U>`. -/
theorem claim_C1 :
    modulus i32 i32 i32 (-7) 3 = some (Ok 0) ∧ Int.tmod (-7) 3 = -1 := by
  constructor
  · decide
  · decide

/-- C2: for unsigned R and signed T, cast reports a domain error on a
negative input, a positive overflow above maxv R, and otherwise succeeds
with the identical value; instantiated by the witness at cast of i8 value
-1 into u8. -/
theorem claim_C2 (R T : IntType) (t : Int) (hR : StdT R) (hT : StdT T)
    (hRs : R.signed = false) (hTs : T.signed = true) (ht : inRange T t) :
    (t < 0 → cast R T t = Err domain_error "converted negative value to unsigned") ∧
    (¬ t < 0 → maxv R < t →
      cast R T t = Err positive_overflow_error "converted signed value too large") ∧
    (¬ t < 0 → ¬ maxv R < t → cast R T t = Ok t) := by
  have hw2 : 2 ≤ R.width := std_two R hR
  rcases R with ⟨sR, wR⟩
  rcases T with ⟨sT, wT⟩
  have hsR : sR = false := hRs
  have hsT : sT = true := hTs
  subst hsR
  subst hsT
  refine ⟨?_, ?_, ?_⟩
  · intro h
    simp only [cast]
    rw [if_pos h]
  · intro h1 h2
    simp only [cast]
    rw [if_neg h1, if_pos h2]
  · intro h1 h2
    simp only [cast]
    rw [if_neg h1, if_neg h2]
    rw [maxv_unsigned] at h2
    have hin : inRange ⟨false, wR⟩ t := ⟨by rw [minv_unsigned]; omega,
      by rw [maxv_unsigned]; omega⟩
    rw [static_cast_of_inRange _ (by omega) _ hin]

/-- Witness for C2 at the spec's boundary row i: cast of i8 value -1 into
u8 is a domain error. -/
theorem claim_C2_witness :
    cast u8 i8 (-1) = Err domain_error "converted negative value to unsigned" :=
  (claim_C2 u8 i8 (-1) (by decide) (by decide) rfl rfl (by decide)).1 (by decide)

/-- C3: divide checks the zero divisor before any cast, repackages any cast
failure as domain_error with the converting message, reports range_error for
signed R at u = -1 and t = minv R, and otherwise returns the quotient
truncated toward zero. -/
theorem claim_C3 (R T U : IntType) (t u : Int) (hR : StdT R) (hT : StdT T)
    (hU : StdT U) (ht : inRange T t) (hu : inRange U u) :
    (u = 0 → divide R T U t u = some (Err domain_error "divide by zero")) ∧
    (u ≠ 0 → (isErrB (cast R T t) = true ∨ isErrB (cast R U u) = true) →
      divide R T U t u = some (Err domain_error "failure converting argument types")) ∧
    (u ≠ 0 → ¬ isErrB (cast R T t) = true → ¬ isErrB (cast R U u) = true →
      R.signed = true → u = -1 → t = minv R →
      divide R T U t u = some (Err range_error "result cannot be represented")) ∧
    (u ≠ 0 → ¬ isErrB (cast R T t) = true → ¬ isErrB (cast R U u) = true →
      ¬ (R.signed = true ∧ u = -1 ∧ t = minv R) →
      divide R T U t u = some (Ok (Int.tdiv t u))) := by
  have hR2 : 2 ≤ R.width := std_two R hR
  refine ⟨?_, ?_, ?_, ?_⟩
  · intro h
    unfold divide
    rw [if_pos h]
  · intro h0 herr
    unfold divide
    rw [if_neg h0]
    cases hct : cast R T t with
    | Err e m => rfl
    | Ok tx =>
      cases hcu : cast R U u with
      | Err e m => rfl
      | Ok ux =>
        rw [hct, hcu] at herr
        rcases herr with hh | hh <;> exact absurd hh (by simp [isErrB])
  · intro h0 hnt hnu hsR hu1 htm
    unfold divide
    rw [if_neg h0]
    cases hct : cast R T t with
    | Err e m =>
      rw [hct] at hnt
      exact absurd rfl hnt
    | Ok tx =>
      cases hcu : cast R U u with
      | Err e m =>
        rw [hcu] at hnu
        exact absurd rfl hnu
      | Ok ux =>
        obtain ⟨htx, hRt⟩ := cast_ok_elim R T t tx (by omega) ht hct
        obtain ⟨hux, hRu⟩ := cast_ok_elim R U u ux (by omega) hu hcu
        subst htx
        subst hux
        dsimp only
        rw [if_pos hsR, if_pos ⟨hu1, htm⟩]
  · intro h0 hnt hnu hg
    unfold divide
    rw [if_neg h0]
    cases hct : cast R T t with
    | Err e m =>
      rw [hct] at hnt
      exact absurd rfl hnt
    | Ok tx =>
      cases hcu : cast R U u with
      | Err e m =>
        rw [hcu] at hnu
        exact absurd rfl hnu
      | Ok ux =>
        obtain ⟨htx, hRt⟩ := cast_ok_elim R T t tx (by omega) ht hct
        obtain ⟨hux, hRu⟩ := cast_ok_elim R U u ux (by omega) hu hcu
        subst htx
        subst hux
        dsimp only
        by_cases hsR : R.signed = true
        · have hgg : ¬(ux = -1 ∧ tx = minv R) := fun hh => hg ⟨hsR, hh.1, hh.2⟩
          rw [if_pos hsR, if_neg hgg]
          unfold cpp_div
          rw [if_neg h0]
          have hdv : inRange R (Int.tdiv tx ux) :=
            tdiv_inRange R hR2 tx ux hRt hRu h0 (fun hh => hg ⟨hsR, hh.1, hh.2⟩)
          rw [if_neg (fun hh => hh.2 hdv)]
          rfl
        · rw [if_neg hsR]
          unfold cpp_div
          rw [if_neg h0, if_neg (fun hh => hsR hh.1)]
          rfl

/-- Witness for C3 at the spec's boundary row h: 10 / 0 in i32 is a domain
error with the divide-by-zero message. -/
theorem claim_C3_witness :
    divide i32 i32 i32 10 0 = some (Err domain_error "divide by zero") :=
  (claim_C3 i32 i32 i32 10 0 (by decide) (by decide) (by decide) (by decide)
    (by decide)).1 rfl

/-- C4: the claim requires negative_overflow_error when the signed
difference falls below minv R and positive_overflow_error when it exceeds
maxv R.  The code returns the two kinds swapped: for i8, (-100) - 100 = -200
is below minv i8 yet yields positive_overflow_error, and 100 - (-100) = 200
is above maxv i8 yet yields negative_overflow_error. -/
theorem claim_C4 :
    subtract i8 i8 i8 (-100) 100 =
      Err positive_overflow_error "subtraction result overflows result type" ∧
    subtract i8 i8 i8 100 (-100) =
      Err negative_overflow_error "subtraction result overflows result type" ∧
    (-100 : Int) - 100 < minv i8 ∧ maxv i8 < (100 : Int) - (-100) := by decide

/-- C5 (amended): a count strictly greater than width R is always rejected
by the outer frame with implementation_defined_behavior (digits R never
exceeds width R); but left_shift of 1 by exactly 8 into u8 passes the frame,
because 8 is not strictly greater than digits u8 = 8, and instead hits the
inner check (count exceeding digits R minus significant_bits t), which
reports undefined_behavior. -/
theorem claim_C5 :
    (∀ (R T U : IntType) (t u : Int), StdT R → StdT T → StdT U →
      inRange T t → inRange U u → (R.width : Int) < u →
      left_shift R T U t u = some (Err implementation_defined_behavior
        "shifting more bits than available is implementation defined behavior")) ∧
    left_shift u8 u8 i32 1 8 = some (Err undefined_behavior
      "shifting left more bits than available is undefined behavior") := by
  constructor
  · intro R T U t u hR hT hU ht hu hcnt
    have hdig : digits R ≤ R.width := digits_le R
    unfold left_shift
    rw [if_neg (by omega : ¬ u = 0), if_neg (by omega : ¬ u < 0),
      if_pos (by omega : u > (digits R : Int))]
  · decide

/-- Witness for C5's universal part: a count of 9 on result type u8 is
rejected by the outer frame. -/
theorem claim_C5_witness :
    left_shift u8 u8 i32 1 9 = some (Err implementation_defined_behavior
      "shifting more bits than available is implementation defined behavior") :=
  claim_C5.1 u8 u8 i32 1 9 (by decide) (by decide) (by decide) (by decide)
    (by decide) (by decide)

/-- Counterexample for C5 as stated: left_shift of 1 by 8 into u8 does not
return implementation_defined_behavior; it returns undefined_behavior. -/
theorem claim_C5_counterexample :
    left_shift u8 u8 i32 1 8 = some (Err undefined_behavior
      "shifting left more bits than available is undefined behavior") ∧
    undefined_behavior ≠ implementation_defined_behavior := by decide

/-- C6 (amended): a shift by zero returns the operand unchanged whenever the
operand is representable in R; for an unrepresentable operand the returned
Ok value is the operand reduced into R by the unchecked conversion of
`return t;`, not the operand itself. -/
theorem claim_C6 (R T U : IntType) (t : Int) (hR : StdT R) (ht : inRange T t)
    (hRt : inRange R t) :
    left_shift R T U t 0 = some (Ok t) ∧ right_shift R T U t 0 = some (Ok t) := by
  have hw : 0 < R.width := by
    have := std_two R hR
    omega
  constructor
  · unfold left_shift
    rw [if_pos rfl, static_cast_of_inRange R hw t hRt]
  · unfold right_shift
    rw [if_pos rfl, static_cast_of_inRange R hw t hRt]

/-- Witness for C6: shifting u8 value 5 by zero returns 5 in both
directions. -/
theorem claim_C6_witness :
    left_shift u8 u8 i32 5 0 = some (Ok 5) ∧
    right_shift u8 u8 i32 5 0 = some (Ok 5) :=
  claim_C6 u8 u8 i32 5 (by decide) (by decide) (by decide)

/-- Counterexample for C6 as stated: the u16 value 300 shifted left by zero
into u8 yields Ok 44 (the value 300 truncated into u8), not Ok 300. -/
theorem claim_C6_counterexample :
    left_shift u8 u16 i32 300 0 = some (Ok 44) ∧
    ¬ left_shift u8 u16 i32 300 0 = some (Ok 300) := by decide

/-- C7: the claim states modulus returns the remainder t mod abs u with the
sign of the dividend for every u that is not zero.  The particular case
modulus of -128 by -1 in i8 indeed yields Ok 0, but the universal statement
fails: for R = T = U = i32, modulus(-5, 3) returns Ok 2 although the
remainder with the sign of the dividend is -2, because the dividend is
converted to unsigned by the usual arithmetic conversions against
`make_unsigned_t<U>`. -/
theorem claim_C7 :
    modulus i32 i32 i32 (-5) 3 = some (Ok 2) ∧ Int.tmod (-5) 3 = -2 ∧
    modulus i8 i8 i8 (-128) (-1) = some (Ok 0) := by
  refine ⟨by decide, by decide, by decide⟩

/-- C8: the cast round trip: a successful cast into R casts back into T to
the original value, whenever the value lies in both ranges. -/
theorem claim_C8 (R T : IntType) (t r : Int) (hR : StdT R) (hT : StdT T)
    (ht : inRange T t) (hmem : minv R ≤ t ∧ t ≤ maxv R)
    (h : cast R T t = Ok r) : cast T R r = Ok t := by
  have hwR : 0 < R.width := by
    have := std_two R hR
    omega
  have hwT : 0 < T.width := by
    have := std_two T hT
    omega
  obtain ⟨hrt, hRt⟩ := cast_ok_elim R T t r hwR ht h
  rw [hrt]
  exact cast_ok_intro T R t hwT hRt ht

/-- Witness for C8: casting 5 from i32 into i8 succeeds and casts back to
5. -/
theorem claim_C8_witness : cast i32 i8 5 = Ok 5 :=
  claim_C8 i8 i32 5 5 (by decide) (by decide) (by decide) (by decide) (by decide)

/-- C9: modulus never casts its operands into R and performs no range check:
its only error is the domain error at u = 0, and for every nonzero u it
returns Ok, even when the operands are not representable in R (no hypothesis
relates t or u to R). -/
theorem claim_C9 (R T U : IntType) (t u : Int) (hT : StdT T) (hU : StdT U)
    (ht : inRange T t) (hu : inRange U u) :
    (u = 0 → modulus R T U t u = some (Err domain_error "denominator is zero")) ∧
    (u ≠ 0 → isOkR (modulus R T U t u) = true) := by
  constructor
  · intro h
    unfold modulus
    rw [if_pos h]
  · intro h
    obtain ⟨v, hv⟩ := modulus_total R T U hT hU t u ht hu h
    rw [hv]
    rfl

/-- Witness for C9: modulus into u8 of the i32 operands 300 and 7, neither
check against u8 being performed, returns Ok. -/
theorem claim_C9_witness : isOkR (modulus u8 i32 i32 300 7) = true :=
  (claim_C9 u8 i32 i32 300 7 (by decide) (by decide) (by decide) (by decide)).2
    (by decide)

/-- C10: the native division and remainder inside divide and modulus are
never evaluated in their trapping cases: with the trapping evaluations
embedded as `none`, both operations always return `some` on representable
inputs. -/
theorem claim_C10 (R T U : IntType) (t u : Int) (hR : StdT R) (hT : StdT T)
    (hU : StdT U) (ht : inRange T t) (hu : inRange U u) :
    divide R T U t u ≠ none ∧ modulus R T U t u ≠ none := by
  have hR2 : 2 ≤ R.width := std_two R hR
  constructor
  · unfold divide
    by_cases hu0 : u = 0
    · rw [if_pos hu0]
      simp
    · rw [if_neg hu0]
      cases hct : cast R T t with
      | Err e m => simp
      | Ok tx =>
        cases hcu : cast R U u with
        | Err e m => simp
        | Ok ux =>
          obtain ⟨htx, hRt⟩ := cast_ok_elim R T t tx (by omega) ht hct
          obtain ⟨hux, hRu⟩ := cast_ok_elim R U u ux (by omega) hu hcu
          subst htx
          subst hux
          dsimp only
          by_cases hsR : R.signed = true
          · by_cases hg : ux = -1 ∧ tx = minv R
            · rw [if_pos hsR, if_pos hg]
              simp
            · rw [if_pos hsR, if_neg hg]
              unfold cpp_div
              rw [if_neg hu0]
              have hdv : inRange R (Int.tdiv tx ux) :=
                tdiv_inRange R hR2 tx ux hRt hRu hu0 hg
              rw [if_neg (fun hh => hh.2 hdv)]
              simp
          · rw [if_neg hsR]
            unfold cpp_div
            rw [if_neg hu0, if_neg (fun hh => hsR hh.1)]
            simp
  · by_cases hu0 : u = 0
    · unfold modulus
      rw [if_pos hu0]
      simp
    · obtain ⟨v, hv⟩ := modulus_total R T U hT hU t u ht hu hu0
      rw [hv]
      simp

/-- Witness for C10 at the hard corner: divide and modulus of -128 by -1 in
i8 are both defined (the guards fire before any native evaluation). -/
theorem claim_C10_witness :
    divide i8 i8 i8 (-128) (-1) ≠ none ∧ modulus i8 i8 i8 (-128) (-1) ≠ none :=
  claim_C10 i8 i8 i8 (-128) (-1) (by decide) (by decide) (by decide) (by decide)
    (by decide)

end SafeNumerics
